import Mathlib

/-!
Shallow embedding of `server/ansi_parser.py` from the TerminalPulse
repository.  Python strings are modelled as `List Char`; the two regular
expressions (`_STRIP_RE` and `_ESC_RE`) are modelled by deterministic
character scanners (both regexes are one-char-lookahead deterministic on
their alternation classes); Python `int(...)` with its `try/except` is
modelled by an `Option`-returning parser whose failure is mapped to `0`
exactly where the source maps a `ValueError` to `0`.  The scanners that
restart at a computed suffix carry an explicit fuel argument (initialised
to the input length, which each step strictly consumes faster than fuel)
so that every definition is structurally recursive and kernel-evaluable.
-/

namespace Ansi

/-- Characters matched by the regex class `[0-9;]` in `_ESC_RE` / `_STRIP_RE`. -/
def isDigitSemi (c : Char) : Bool := c.isDigit || c == ';'

/-- Terminator letters of strippable CSI sequences: the regex class
`[A-HJKSTfhln]` in `_STRIP_RE`. -/
def csiTerm (c : Char) : Bool :=
  ['A', 'B', 'C', 'D', 'E', 'F', 'G', 'H', 'J', 'K', 'S', 'T', 'f', 'h', 'l', 'n'].contains c

/-- Charset identifiers of `ESC ( x` sequences: the regex class `[AB012]`. -/
def charsetId (c : Char) : Bool := ['A', 'B', '0', '1', '2'].contains c

/-- One lowercase hexadecimal digit, as produced by Python's `x` format code. -/
def hexDigit (k : Nat) : Char :=
  if k < 10 then Char.ofNat ('0'.toNat + k) else Char.ofNat ('a'.toNat + (k - 10))

/-- Fuelled big-endian base-16 digit accumulator (fuel ≥ 1 suffices for
inputs below 16, and the wrapper passes `n + 1` which always suffices). -/
def toHexAux : Nat → Nat → List Char → List Char
  | 0, _, acc => acc
  | fuel + 1, n, acc =>
    if n < 16 then hexDigit n :: acc
    else toHexAux fuel (n / 16) (hexDigit (n % 16) :: acc)

/-- Python `format(n, "x")` for a natural number: minimal lowercase hex digits. -/
def pyHexNat (n : Nat) : List Char := toHexAux (n + 1) n []

/-- Python `format(n, "02x")` for a natural number: lowercase hex, padded with
a leading zero to width two. -/
def pyHex2 (n : Nat) : List Char :=
  let ds := pyHexNat n
  if ds.length < 2 then '0' :: ds else ds

/-- Python `format(n, "02x")` for an arbitrary integer: a negative value is
rendered as a minus sign followed by the hex digits of its absolute value
(the sign counts toward the width, so no padding is ever added). -/
def pyHex2I (n : Int) : List Char :=
  if n < 0 then '-' :: pyHexNat n.natAbs else pyHex2 n.toNat

/-- `_COLOR_256_NAMES`: palette indices 0–15 map to these named colors. -/
def color256Names : List (List Char) :=
  [("black".toList), ("red".toList), ("green".toList), ("yellow".toList),
   ("blue".toList), ("magenta".toList), ("cyan".toList), ("white".toList),
   ("brBlack".toList), ("brRed".toList), ("brGreen".toList), ("brYellow".toList),
   ("brBlue".toList), ("brMagenta".toList), ("brCyan".toList), ("brWhite".toList)]

/-- `_color_256`: convert a 256-color index to a named color or `#rrggbb` hex. -/
def color256 (n : Int) : List Char :=
  if 0 ≤ n ∧ n ≤ 15 then color256Names.getD n.toNat []
  else if 16 ≤ n ∧ n ≤ 231 then
    let m := (n - 16).toNat
    let r := (m / 36) * 51
    let g := ((m % 36) / 6) * 51
    let b := (m % 6) * 51
    '#' :: (pyHex2 r ++ pyHex2 g ++ pyHex2 b)
  else if 232 ≤ n ∧ n ≤ 255 then
    let v := (8 + (n - 232) * 10).toNat
    '#' :: (pyHex2 v ++ pyHex2 v ++ pyHex2 v)
  else ("white".toList)

/-- The f-string `f"#\x7br:02x\x7d\x7bg:02x\x7d\x7bb:02x\x7d"` used by the
`38;2;R;G;B` and `48;2;R;G;B` forms. -/
def hexRGB (r g b : Int) : List Char := '#' :: (pyHex2I r ++ pyHex2I g ++ pyHex2I b)

/-- `_BASIC_FG` as an association list, in source order. -/
def basicFgList : List (Int × List Char) :=
  [(30, ("black".toList)), (31, ("red".toList)), (32, ("green".toList)), (33, ("yellow".toList)),
   (34, ("blue".toList)), (35, ("magenta".toList)), (36, ("cyan".toList)), (37, ("white".toList)),
   (90, ("brBlack".toList)), (91, ("brRed".toList)), (92, ("brGreen".toList)), (93, ("brYellow".toList)),
   (94, ("brBlue".toList)), (95, ("brMagenta".toList)), (96, ("brCyan".toList)), (97, ("brWhite".toList))]

/-- `_BASIC_BG` as an association list, in source order. -/
def basicBgList : List (Int × List Char) :=
  [(40, ("black".toList)), (41, ("red".toList)), (42, ("green".toList)), (43, ("yellow".toList)),
   (44, ("blue".toList)), (45, ("magenta".toList)), (46, ("cyan".toList)), (47, ("white".toList)),
   (100, ("brBlack".toList)), (101, ("brRed".toList)), (102, ("brGreen".toList)), (103, ("brYellow".toList)),
   (104, ("brBlue".toList)), (105, ("brMagenta".toList)), (106, ("brCyan".toList)), (107, ("brWhite".toList))]

/-- `p in _BASIC_FG` / `_BASIC_FG[p]` combined: the looked-up name, if any. -/
def basicFg (p : Int) : Option (List Char) :=
  (basicFgList.find? (fun q => q.1 == p)).map Prod.snd

/-- `p in _BASIC_BG` / `_BASIC_BG[p]` combined: the looked-up name, if any. -/
def basicBg (p : Int) : Option (List Char) :=
  (basicBgList.find? (fun q => q.1 == p)).map Prod.snd

/-- `_State`: the mutable attribute state threaded through one parse call. -/
structure State where
  fg : Option (List Char)
  bg : Option (List Char)
  bold : Bool
  dim : Bool
  italic : Bool
  underline : Bool
  reverse : Bool
deriving DecidableEq, Repr

/-- `_State.__init__` / `_State.reset`: all fields absent or false. -/
def State.initial : State :=
  { fg := none, bg := none, bold := false, dim := false,
    italic := false, underline := false, reverse := false }

/-- The `"_defBg"` sentinel substituted for a missing post-swap foreground. -/
def defBg : List Char := "_defBg".toList

/-- The `"_defFg"` sentinel substituted for a missing post-swap background. -/
def defFg : List Char := "_defFg".toList

/-- Python truthiness of an optional string: `None` and the empty string are
falsy, so `if fg:` keeps exactly the non-empty present values. -/
def truthy : Option (List Char) → Option (List Char)
  | some [] => none
  | o => o

/-- A run dict.  A field that the Python dict omits is modelled as `none`
(for colors) or `false` (for the boolean flags). -/
structure Run where
  t : List Char
  fg : Option (List Char)
  bg : Option (List Char)
  b : Bool
  d : Bool
  i : Bool
  u : Bool
deriving DecidableEq, Repr

/-- `_State.to_run`: build a compact run, swapping colors under reverse video
and substituting the two sentinels for the missing post-swap slots. -/
def State.to_run (st : State) (text : List Char) : Run :=
  let fg0 := st.fg
  let bg0 := st.bg
  let fg1 := if st.reverse then some (bg0.getD defBg) else fg0
  let bg1 := if st.reverse then some (fg0.getD defFg) else bg0
  { t := text, fg := truthy fg1, bg := truthy bg1,
    b := st.bold, d := st.dim, i := st.italic, u := st.underline }

/-- `_apply_sgr`: fold the integer parameters of one SGR sequence into the
state.  The `38`/`48` extended-color forms consume their arguments; an
incomplete form falls through, leaving its arguments to be processed
as ordinary codes by the next loop iteration, exactly as in the source. -/
def applySgr : State → List Int → State
  | st, [] => st
  | st, p :: rest =>
    if p = 0 then applySgr State.initial rest
    else if p = 1 then applySgr { st with bold := true } rest
    else if p = 2 then applySgr { st with dim := true } rest
    else if p = 3 then applySgr { st with italic := true } rest
    else if p = 4 then applySgr { st with underline := true } rest
    else if p = 22 then applySgr { st with bold := false, dim := false } rest
    else if p = 23 then applySgr { st with italic := false } rest
    else if p = 7 then applySgr { st with reverse := true } rest
    else if p = 24 then applySgr { st with underline := false } rest
    else if p = 27 then applySgr { st with reverse := false } rest
    else if p = 39 then applySgr { st with fg := none } rest
    else if p = 49 then applySgr { st with bg := none } rest
    else if (basicFg p).isSome then applySgr { st with fg := basicFg p } rest
    else if (basicBg p).isSome then applySgr { st with bg := basicBg p } rest
    else if p = 38 then
      match rest with
      | 5 :: n :: rest2 => applySgr { st with fg := some (color256 n) } rest2
      | 2 :: r :: g :: b :: rest2 => applySgr { st with fg := some (hexRGB r g b) } rest2
      | other => applySgr st other
    else if p = 48 then
      match rest with
      | 5 :: n :: rest2 => applySgr { st with bg := some (color256 n) } rest2
      | 2 :: r :: g :: b :: rest2 => applySgr { st with bg := some (hexRGB r g b) } rest2
      | other => applySgr st other
    else applySgr st rest

/-- Python `str.split(sep)` for a one-character separator: always returns at
least one (possibly empty) piece. -/
def splitOnChar (sep : Char) : List Char → List (List Char)
  | [] => [[]]
  | c :: rest =>
    if c = sep then [] :: splitOnChar sep rest
    else
      match splitOnChar sep rest with
      | t :: ts => (c :: t) :: ts
      | [] => [[c]]

/-- The digits of a piece, read as a natural number; `none` unless the piece
is a non-empty all-digit string. -/
def natDigits (l : List Char) : Option Nat :=
  if l.isEmpty then none
  else if l.all Char.isDigit then
    some (l.foldl (fun a c => a * 10 + (c.toNat - '0'.toNat)) 0)
  else none

/-- Python `int(s)` on one parameter piece: optional surrounding whitespace,
optional sign, then decimal digits; anything else raises (here: `none`). -/
def pyInt (l : List Char) : Option Int :=
  let l2 := ((l.dropWhile Char.isWhitespace).reverse.dropWhile Char.isWhitespace).reverse
  match l2 with
  | '+' :: rest => (natDigits rest).map Int.ofNat
  | '-' :: rest => (natDigits rest).map (fun n => -(n : Int))
  | _ => (natDigits l2).map Int.ofNat

/-- The parameter-list extraction of `parse_line`: split the body on `;` and
read each piece with `int`, a failing piece becoming `0`. -/
def parseParams (l : List Char) : List Int :=
  (splitOnChar ';' l).map (fun p => (pyInt p).getD 0)

/-- The OSC alternative of `_STRIP_RE` after `ESC ]`: skip characters outside
the class, then require a bell or an `ESC \` pair; returns the remainder
after the match, or `none`. -/
def oscScan : List Char → Option (List Char)
  | [] => none
  | c :: rest =>
    if c = '\x07' then some rest
    else if c = '\x1b' then
      match rest with
      | c2 :: rest2 => if c2 = '\\' then some rest2 else none
      | [] => none
    else oscScan rest

/-- The CSI alternative of `_STRIP_RE` after `ESC [`: skip `[0-9;]`, then
require a terminator letter; returns the remainder, or `none`. -/
def csiScan : List Char → Option (List Char)
  | [] => none
  | c :: rest =>
    if isDigitSemi c then csiScan rest
    else if csiTerm c then some rest
    else none

/-- `_STRIP_RE` attempted at one position, given the input after the `ESC`:
the remainder after a strippable sequence, or `none`. -/
def tryStrip : List Char → Option (List Char)
  | [] => none
  | c :: rest =>
    if c = ']' then oscScan rest
    else if c = '[' then csiScan rest
    else if c = '(' then
      match rest with
      | c2 :: rest2 => if charsetId c2 then some rest2 else none
      | [] => none
    else none

/-- Fuelled driver of `_STRIP_RE.sub("", line)`: leftmost matches are removed,
unmatched characters are kept.  Each step consumes at least one input
character and exactly one unit of fuel, so fuel = input length suffices
and the fuel-exhausted branch is unreachable from the wrapper. -/
def stripFuel : Nat → List Char → List Char
  | 0, l => l
  | _ + 1, [] => []
  | fuel + 1, c :: rest =>
    if c = '\x1b' then
      match tryStrip rest with
      | some rem => stripFuel fuel rem
      | none => c :: stripFuel fuel rest
    else c :: stripFuel fuel rest

/-- `_STRIP_RE.sub("", line)`. -/
def stripEscapes (l : List Char) : List Char := stripFuel l.length l

/-- The `[0-9;]*m` tail of `_ESC_RE` after `ESC [`: the matched body and the
remainder after the `m`, or `none`. -/
def sgrBody : List Char → Option (List Char × List Char)
  | [] => none
  | c :: rest =>
    if isDigitSemi c then (sgrBody rest).map (fun p => (c :: p.1, p.2))
    else if c = 'm' then some ([], rest)
    else none

/-- `_ESC_RE` attempted at one position, given the input after the `ESC`:
the matched token minus its leading `ESC`, and the remainder, or `none`. -/
def escSgr : List Char → Option (List Char × List Char)
  | [] => none
  | c :: rest =>
    if c = '[' then (sgrBody rest).map (fun p => ('[' :: p.1 ++ ['m'], p.2))
    else none

/-- Fuelled driver of `_ESC_RE.split(line)` with its capturing group: the
output alternates literal pieces and matched SGR tokens, empty pieces
included, exactly as `re.split` produces them. -/
def sgrSplitFuel : Nat → List Char → List Char → List (List Char)
  | 0, acc, l => [acc.reverse ++ l]
  | _ + 1, acc, [] => [acc.reverse]
  | fuel + 1, acc, c :: rest =>
    if c = '\x1b' then
      match escSgr rest with
      | some (tok, rem) => acc.reverse :: ('\x1b' :: tok) :: sgrSplitFuel fuel [] rem
      | none => sgrSplitFuel fuel (c :: acc) rest
    else sgrSplitFuel fuel (c :: acc) rest

/-- `_ESC_RE.split(line)`. -/
def sgrSplit (l : List Char) : List (List Char) := sgrSplitFuel l.length [] l

/-- `token.startswith("\x1b[")`. -/
def startsWithEscBracket : List Char → Bool
  | c1 :: c2 :: _ => c1 == '\x1b' && c2 == '['
  | _ => false

/-- The token loop of `parse_line`: empty tokens are skipped; a token that
starts with `ESC [` — whether or not the split regex matched it — has its
first two and last characters stripped and is applied as SGR parameters;
any other token becomes a run under the current state. -/
def runsOfTokens (st : State) : List (List Char) → List Run × State
  | [] => ([], st)
  | tok :: rest =>
    if tok.isEmpty then runsOfTokens st rest
    else if startsWithEscBracket tok then
      runsOfTokens (applySgr st (parseParams (tok.drop 2).dropLast)) rest
    else
      ((st.to_run tok) :: (runsOfTokens st rest).1, (runsOfTokens st rest).2)

/-- `parse_line`: strip non-SGR escapes, split on SGR sequences, and fold the
token loop; returns the runs and the updated state. -/
def parseLineCore (st : State) (line : List Char) : List Run × State :=
  runsOfTokens st (sgrSplit (stripEscapes line))

/-- The loop of `parse_lines`: one output line per input line, the state
threaded through without reset at line boundaries. -/
def parseDoc (st : State) : List (List Char) → List (List Run)
  | [] => []
  | l :: rest => (parseLineCore st l).1 :: parseDoc (parseLineCore st l).2 rest

/-- `parse_lines` on the character-list model. -/
def parseLinesCore (raw : List Char) : List (List Run) :=
  parseDoc State.initial (splitOnChar '\n' raw)

/-- `parse_lines`: split the capture on line feeds and parse every line with
one shared state. -/
def parse_lines (raw : String) : List (List Run) := parseLinesCore raw.toList

/-- Written from the specification's words (§4.3), for comparison with the
source's `color256`: indices 0–15 give the 16 named colors in the fixed
order black, red, green, yellow, blue, magenta, cyan, white and then the
bright counterparts; 16–231 the 6×6×6 cube via `n' = n − 16`,
`r = (n' / 36) × 51`, `g = ((n' mod 36) / 6) × 51`, `b = (n' mod 6) × 51`
with integer division; 232–255 the gray ramp `v = 8 + (n − 232) × 10`;
every other index falls back to the named color white. -/
def colorResolverSpec (n : Int) : List Char :=
  if 0 ≤ n ∧ n ≤ 15 then
    [("black".toList), ("red".toList), ("green".toList), ("yellow".toList),
     ("blue".toList), ("magenta".toList), ("cyan".toList), ("white".toList),
     ("brBlack".toList), ("brRed".toList), ("brGreen".toList), ("brYellow".toList),
     ("brBlue".toList), ("brMagenta".toList), ("brCyan".toList), ("brWhite".toList)].getD n.toNat []
  else if 16 ≤ n ∧ n ≤ 231 then
    let m := (n - 16).toNat
    '#' :: (pyHex2 ((m / 36) * 51) ++ pyHex2 (((m % 36) / 6) * 51) ++ pyHex2 ((m % 6) * 51))
  else if 232 ≤ n ∧ n ≤ 255 then
    let v := (8 + (n - 232) * 10).toNat
    '#' :: (pyHex2 v ++ pyHex2 v ++ pyHex2 v)
  else ("white".toList)

/-- The SGR parameter values that appear in the transition table of
`_apply_sgr` (codes with an `if`/`elif` arm of their own). -/
def sgrKnown (p : Int) : Bool :=
  p == 0 || p == 1 || p == 2 || p == 3 || p == 4 || p == 22 || p == 23 || p == 7 ||
  p == 24 || p == 27 || p == 39 || p == 49 || (basicFg p).isSome || (basicBg p).isSome ||
  p == 38 || p == 48

/-- Whether the parameters following a `38`/`48` begin with a complete
`5;index` or `2;R;G;B` extended-color argument form. -/
def extArgsComplete : List Int → Bool
  | 5 :: _ :: _ => true
  | 2 :: _ :: _ :: _ :: _ => true
  | _ => false

/-- A lowercase hexadecimal digit character. -/
def lowerHexDigit (c : Char) : Bool := ('0' ≤ c && c ≤ '9') || ('a' ≤ c && c ≤ 'f')

/-- A lowercase hexadecimal digit or the minus sign that Python's `02x`
format emits for a negative component. -/
def hexDashChar (c : Char) : Bool := lowerHexDigit c || c == '-'

/-- Written from the claim's words: the claimed closed set of run color
strings — one of the 16 fixed names, a `#`-prefixed lowercase hex string,
or one of the two sentinel tokens. -/
def claimedRunColor (s : List Char) : Bool :=
  color256Names.contains s ||
  (match s with
   | c :: t => c == '#' && !t.isEmpty && t.all lowerHexDigit
   | [] => false) ||
  s == defBg || s == defFg

/-- The color strings that the parser can actually store in the attribute
state: a fixed name, or `#` followed by lowercase hex digits and possibly
minus signs. -/
def stateColorOK (s : List Char) : Bool :=
  color256Names.contains s ||
  (match s with
   | c :: t => c == '#' && t.all hexDashChar
   | [] => false)

/-- The color strings that can appear on an emitted run: a storable state
color or one of the two reverse-video sentinels. -/
def runColorOK (s : List Char) : Bool := stateColorOK s || s == defBg || s == defFg

/-- Both color slots of a state hold storable color strings. -/
def StateColorsOK (st : State) : Prop :=
  (∀ s, st.fg = some s → stateColorOK s = true) ∧
  (∀ s, st.bg = some s → stateColorOK s = true)

/-- The concatenated literal text of a list of runs. -/
def runsText (runs : List Run) : List Char := (runs.map Run.t).flatten

/-- Concatenate the even-indexed elements: in the output of `re.split` with
one capturing group these are exactly the non-matched pieces. -/
def alternateEvens : List (List Char) → List Char
  | [] => []
  | [x] => x
  | x :: _ :: rest => x ++ alternateEvens rest

/-- A line with its recognized SGR sequences deleted: the non-matched pieces
of the SGR split, concatenated. -/
def sgrRemoved (l : List Char) : List Char := alternateEvens (sgrSplit l)

section Lemmas

/-- Python truthiness keeps a present non-empty string unchanged. -/
theorem truthy_of_ne_nil {l : List Char} (h : l ≠ []) : truthy (some l) = some l := by
  cases l with
  | nil => exact absurd rfl h
  | cons c cs => rfl

/-- A present value surviving the truthiness filter was present already. -/
theorem eq_some_of_truthy_eq_some {o : Option (List Char)} {s : List Char}
    (h : truthy o = some s) : o = some s := by
  cases o with
  | none => simp [truthy] at h
  | some v =>
    cases v with
    | nil => simp [truthy] at h
    | cons c cs => simpa [truthy] using h

/-- `str.split` never returns an empty list of pieces. -/
theorem splitOnChar_ne_nil (sep : Char) (l : List Char) : splitOnChar sep l ≠ [] := by
  induction l with
  | nil => simp [splitOnChar]
  | cons c rest ih =>
    by_cases hc : c = sep
    · simp [splitOnChar, hc]
    · simp only [splitOnChar, if_neg hc]
      cases h : splitOnChar sep rest with
      | nil => simp
      | cons t ts => simp

/-- `str.split` returns one piece more than the number of separators. -/
theorem splitOnChar_length (sep : Char) (l : List Char) :
    (splitOnChar sep l).length = l.count sep + 1 := by
  induction l with
  | nil => simp [splitOnChar]
  | cons c rest ih =>
    by_cases hc : c = sep
    · subst hc
      simp [splitOnChar, ih, List.count_cons]
    · simp only [splitOnChar, if_neg hc]
      cases h : splitOnChar sep rest with
      | nil => exact absurd h (splitOnChar_ne_nil sep rest)
      | cons t ts =>
        rw [h] at ih
        simp only [List.length_cons] at ih ⊢
        have hbe : (sep == c) = false := beq_eq_false_iff_ne.mpr (fun hs => hc hs.symm)
        have hcnt : (c :: rest).count sep = rest.count sep := by
          simp [List.count_cons, hbe, hc]
        omega

/-- The document driver emits exactly one output line per input line. -/
theorem parseDoc_length (st : State) (ls : List (List Char)) :
    (parseDoc st ls).length = ls.length := by
  induction ls generalizing st with
  | nil => rfl
  | cons l rest ih => simp [parseDoc, ih]

end Lemmas

section SgrLemmas

/-- Head reduction of `_apply_sgr` at code 38: the extended-color argument
match on the remaining parameters. -/
theorem applySgr_cons_38 (st : State) (rest : List Int) :
    applySgr st (38 :: rest) =
      match rest with
      | 5 :: n :: rest2 => applySgr { st with fg := some (color256 n) } rest2
      | 2 :: r :: g :: b :: rest2 => applySgr { st with fg := some (hexRGB r g b) } rest2
      | other => applySgr st other := by
  rw [applySgr.eq_def]
  dsimp only
  rw [if_neg (by decide : ¬ (38 : Int) = 0), if_neg (by decide : ¬ (38 : Int) = 1),
    if_neg (by decide : ¬ (38 : Int) = 2), if_neg (by decide : ¬ (38 : Int) = 3),
    if_neg (by decide : ¬ (38 : Int) = 4), if_neg (by decide : ¬ (38 : Int) = 22),
    if_neg (by decide : ¬ (38 : Int) = 23), if_neg (by decide : ¬ (38 : Int) = 7),
    if_neg (by decide : ¬ (38 : Int) = 24), if_neg (by decide : ¬ (38 : Int) = 27),
    if_neg (by decide : ¬ (38 : Int) = 39), if_neg (by decide : ¬ (38 : Int) = 49),
    if_neg (by decide : ¬ ((basicFg 38).isSome = true)),
    if_neg (by decide : ¬ ((basicBg 38).isSome = true)),
    if_pos (rfl : (38 : Int) = 38)]

/-- Head reduction of `_apply_sgr` at code 48: the extended-color argument
match on the remaining parameters. -/
theorem applySgr_cons_48 (st : State) (rest : List Int) :
    applySgr st (48 :: rest) =
      match rest with
      | 5 :: n :: rest2 => applySgr { st with bg := some (color256 n) } rest2
      | 2 :: r :: g :: b :: rest2 => applySgr { st with bg := some (hexRGB r g b) } rest2
      | other => applySgr st other := by
  rw [applySgr.eq_def]
  dsimp only
  rw [if_neg (by decide : ¬ (48 : Int) = 0), if_neg (by decide : ¬ (48 : Int) = 1),
    if_neg (by decide : ¬ (48 : Int) = 2), if_neg (by decide : ¬ (48 : Int) = 3),
    if_neg (by decide : ¬ (48 : Int) = 4), if_neg (by decide : ¬ (48 : Int) = 22),
    if_neg (by decide : ¬ (48 : Int) = 23), if_neg (by decide : ¬ (48 : Int) = 7),
    if_neg (by decide : ¬ (48 : Int) = 24), if_neg (by decide : ¬ (48 : Int) = 27),
    if_neg (by decide : ¬ (48 : Int) = 39), if_neg (by decide : ¬ (48 : Int) = 49),
    if_neg (by decide : ¬ ((basicFg 48).isSome = true)),
    if_neg (by decide : ¬ ((basicBg 48).isSome = true)),
    if_neg (by decide : ¬ (48 : Int) = 38), if_pos (rfl : (48 : Int) = 48)]

/-- A non-empty parameter list consisting only of zeros resets the state:
each `0` performs the full reset and the final reset wins. -/
theorem applySgr_zeros :
    ∀ (ps : List Int), (∀ x ∈ ps, x = 0) → ∀ st : State, ps ≠ [] →
      applySgr st ps = State.initial := by
  intro ps
  induction ps with
  | nil => intro _ st hne; exact absurd rfl hne
  | cons p rest ih =>
    intro hall st _
    have hp : p = 0 := hall p (List.mem_cons_self p rest)
    subst hp
    rw [applySgr.eq_def]
    dsimp only
    rw [if_pos rfl]
    cases rest with
    | nil => rfl
    | cons q qs =>
      exact ih (fun x hx => hall x (List.mem_cons_of_mem _ hx)) State.initial (by simp)

end SgrLemmas

/-- C1: while the reverse flag is true, every emitted Run swaps foreground
and background, substituting the `DefaultBackground` sentinel for an absent
post-swap foreground and the `DefaultForeground` sentinel for an absent
post-swap background; in particular `ESC[7m` followed by text with no
colors set yields a Run whose fg is the `_defBg` sentinel and whose bg is
the `_defFg` sentinel. -/
theorem c1_reverse_sentinels :
    (∀ (st : State) (text : List Char), st.reverse = true →
      st.fg ≠ some [] → st.bg ≠ some [] →
      (st.to_run text).fg = some (st.bg.getD defBg) ∧
      (st.to_run text).bg = some (st.fg.getD defFg)) ∧
    parse_lines "\x1b[7mrev \x1b[0m" =
      [[⟨("rev ".toList), some defBg, some defFg, false, false, false, false⟩]] := by
  constructor
  · intro st text hrev hfg hbg
    have hfg1 : (st.to_run text).fg = truthy (some (st.bg.getD defBg)) := by
      simp [State.to_run, hrev]
    have hbg1 : (st.to_run text).bg = truthy (some (st.fg.getD defFg)) := by
      simp [State.to_run, hrev]
    have hne1 : st.bg.getD defBg ≠ [] := by
      cases hb : st.bg with
      | none => simp [defBg]
      | some v =>
        simpa using fun hv => hbg (by rw [hb, hv])
    have hne2 : st.fg.getD defFg ≠ [] := by
      cases hf : st.fg with
      | none => simp [defFg]
      | some v =>
        simpa using fun hv => hfg (by rw [hf, hv])
    rw [hfg1, hbg1, truthy_of_ne_nil hne1, truthy_of_ne_nil hne2]
    exact ⟨rfl, rfl⟩
  · decide

/-- C1 witness: a concrete reversed state with a red foreground and no
background produces the `_defBg` sentinel foreground and red background. -/
theorem c1_reverse_sentinels_witness :
    (({ fg := some ("red".toList), bg := none, bold := false, dim := false,
        italic := false, underline := false, reverse := true } : State).to_run
        ("x".toList)).fg = some defBg ∧
    (({ fg := some ("red".toList), bg := none, bold := false, dim := false,
        italic := false, underline := false, reverse := true } : State).to_run
        ("x".toList)).bg = some ("red".toList) :=
  c1_reverse_sentinels.1
    { fg := some ("red".toList), bg := none, bold := false, dim := false,
      italic := false, underline := false, reverse := true }
    ("x".toList) rfl (by decide) (by decide)

/-- C2 counterexample: an SGR-shaped sequence with non-numeric parameter
text does not behave identically to parameter 0 — `ESC[xm` followed by
`hello` yields no Run at all (the trailing text is swallowed), whereas
`ESC[0m` followed by `hello` yields the Run `hello`. -/
theorem c2_malformed_param_counterexample :
    parse_lines "\x1b[xmhello" = [[]] ∧
    parse_lines "\x1b[0mhello" =
      [[⟨("hello".toList), none, none, false, false, false, false⟩]] ∧
    parse_lines "\x1b[xmhello" ≠ parse_lines "\x1b[0mhello" :=
  ⟨by decide, by decide, by decide⟩

/-- C2 amended: an SGR-shaped sequence with non-numeric parameter text is
not tokenized as an SGR sequence.  Instead, every token that begins with
`ESC[` — recognized SGR sequence or not — is consumed whole as one
pseudo-SGR sequence, contributing no literal text and applying the
parameters extracted from the text between `ESC[` and the token's last
character; a parameter body all of whose `;`-separated pieces are
non-numeric resets the state exactly as parameter 0 does; and a non-empty
token that does not begin with `ESC[` (such as `ESC[xm` preceded by
literal text in the same token) is emitted as literal text with no state
change.  Hence `ESC[xm` alone behaves like `ESC[0m`, and parsing never
raises. -/
theorem c2_malformed_param_amended :
    (∀ (st : State) (tok : List Char) (rest : List (List Char)),
      startsWithEscBracket tok = true →
      runsOfTokens st (tok :: rest) =
        runsOfTokens (applySgr st (parseParams (tok.drop 2).dropLast)) rest) ∧
    (∀ (st : State) (body : List Char),
      (∀ piece ∈ splitOnChar ';' body, pyInt piece = none) →
      applySgr st (parseParams body) = State.initial) ∧
    (∀ (st : State) (tok : List Char) (rest : List (List Char)),
      tok.isEmpty = false → startsWithEscBracket tok = false →
      runsOfTokens st (tok :: rest) =
        ((st.to_run tok) :: (runsOfTokens st rest).1, (runsOfTokens st rest).2)) ∧
    parse_lines "\x1b[xm" = [[]] ∧
    parse_lines "\x1b[xm" = parse_lines "\x1b[0m" := by
  refine ⟨?_, ?_, ?_, by decide, by decide⟩
  · intro st tok rest hs
    have hne : tok.isEmpty = false := by
      cases tok with
      | nil => simp [startsWithEscBracket] at hs
      | cons c cs => rfl
    rw [runsOfTokens.eq_def]
    dsimp only
    rw [if_neg (by simp [hne]), if_pos hs]
  · intro st body hnone
    apply applySgr_zeros
    · intro x hx
      unfold parseParams at hx
      rcases List.mem_map.mp hx with ⟨piece, hpmem, hpe⟩
      rw [hnone piece hpmem] at hpe
      simpa using hpe.symm
    · unfold parseParams
      simp only [ne_eq, List.map_eq_nil_iff]
      exact splitOnChar_ne_nil ';' body
  · intro st tok rest hne hs
    rw [runsOfTokens.eq_def]
    dsimp only
    rw [if_neg (by simp [hne]), if_neg (by simp [hs])]

/-- C2 amended witness: the pseudo-SGR consumption applied to the concrete
token `ESC[xm`, the all-pieces-non-numeric reset applied to the concrete
body `x`, and the literal emission applied to the concrete token `A`. -/
theorem c2_malformed_param_amended_witness :
    runsOfTokens State.initial [("\x1b[xm".toList)] =
      runsOfTokens
        (applySgr State.initial (parseParams (("\x1b[xm".toList).drop 2).dropLast)) [] ∧
    applySgr State.initial (parseParams ("x".toList)) = State.initial ∧
    runsOfTokens State.initial [("A".toList)] =
      ((State.initial.to_run ("A".toList)) :: (runsOfTokens State.initial []).1,
        (runsOfTokens State.initial []).2) :=
  ⟨c2_malformed_param_amended.1 State.initial ("\x1b[xm".toList) [] (by decide),
   c2_malformed_param_amended.2.1 State.initial ("x".toList) (by decide),
   c2_malformed_param_amended.2.2.1 State.initial ("A".toList) [] (by decide) (by decide)⟩

/-- C3 counterexample: a `38` followed by an incomplete `2;R;G;B` form does
not leave the state as if the partial parameters were absent — the trailing
`2` is processed as the standalone SGR code for dim, so `ESC[38;2m`
followed by `X` yields a dim Run. -/
theorem c3_extended_color_counterexample :
    applySgr State.initial [38, 2] ≠ State.initial ∧
    (applySgr State.initial [38, 2]).dim = true ∧
    parse_lines "\x1b[38;2mX" =
      [[⟨("X".toList), none, none, false, true, false, false⟩]] :=
  ⟨by decide, by decide, by decide⟩

/-- C4: the color resolver agrees with the specification's formula on all
integer indices — names for 0–15, the 6×6×6 cube for 16–231, the gray ramp
for 232–255, white for everything else — and in particular maps 196 to
`#ff0000`, 232 to `#080808`, 255 to `#eeeeee`, and 1 to red. -/
theorem c4_color_resolver :
    (∀ n : Int, color256 n = colorResolverSpec n) ∧
    color256 196 = ("#ff0000".toList) ∧
    color256 232 = ("#080808".toList) ∧
    color256 255 = ("#eeeeee".toList) ∧
    color256 1 = ("red".toList) :=
  ⟨fun _ => rfl, by decide, by decide, by decide, by decide⟩

/-- C5: the parser is total — every input string produces a document, and
malformed, unterminated or unrecognized escape sequences degrade to either
a pseudo-SGR application or literal text instead of failing. -/
theorem c5_parser_total :
    (∀ raw : String, ∃ doc : List (List Run), parse_lines raw = doc) ∧
    parse_lines "\x1b[" = [[]] ∧
    parse_lines "\x1bQoops" =
      [[⟨("\x1bQoops".toList), none, none, false, false, false, false⟩]] ∧
    parse_lines "\x1b]0;title" =
      [[⟨("\x1b]0;title".toList), none, none, false, false, false, false⟩]] :=
  ⟨fun _ => ⟨_, rfl⟩, by decide, by decide, by decide⟩

/-- C6: one attribute state is threaded through all lines without reset at
line boundaries — processing a document steps line by line, each line
starting from the state the previous line ended with; in particular bold
and a green foreground set on line 1 with no reset still style the plain
text of line 2. -/
theorem c6_state_threading :
    (∀ (st : State) (line : List Char) (rest : List (List Char)),
      parseDoc st (line :: rest) =
        (parseLineCore st line).1 :: parseDoc (parseLineCore st line).2 rest) ∧
    parse_lines "\x1b[1m\x1b[32mbold green\nplain" =
      [[⟨("bold green".toList), some ("green".toList), none, true, false, false, false⟩],
       [⟨("plain".toList), some ("green".toList), none, true, false, false, false⟩]] :=
  ⟨fun _ _ _ => rfl, by decide⟩

/-- C8: the document has exactly one Line per input line — one more Line
than the number of line-feed characters, including a trailing empty Line
when the capture ends with a line feed — and the empty string parses to a
document with exactly one Line containing zero Runs. -/
theorem c8_line_structure :
    (∀ raw : String, (parse_lines raw).length = raw.toList.count '\n' + 1) ∧
    parse_lines "" = [[]] ∧
    parse_lines "a\n" =
      [[⟨("a".toList), none, none, false, false, false, false⟩], []] := by
  refine ⟨fun raw => ?_, by decide, by decide⟩
  unfold parse_lines parseLinesCore
  rw [parseDoc_length, splitOnChar_length]

/-- C3 amended: when a `38` or `48` is followed neither by a complete
`5;index` form nor by a complete `2;R;G;B` form, only the `38`/`48` code
itself is ignored; the following parameters are not skipped and are then
interpreted as standalone SGR codes (so an incomplete `38;2` sets dim via
the trailing `2`). -/
theorem c3_extended_color_amended :
    ∀ (st : State) (rest : List Int), extArgsComplete rest = false →
      applySgr st (38 :: rest) = applySgr st rest ∧
      applySgr st (48 :: rest) = applySgr st rest := by
  intro st rest h
  constructor
  · rw [applySgr_cons_38]
    split
    · simp [extArgsComplete] at h
    · simp [extArgsComplete] at h
    · rfl
  · rw [applySgr_cons_48]
    split
    · simp [extArgsComplete] at h
    · simp [extArgsComplete] at h
    · rfl

/-- C3 amended witness: an incomplete `38;2` (and `48;2`) leaves the `2` to
be interpreted as the standalone dim code. -/
theorem c3_extended_color_amended_witness :
    applySgr State.initial (38 :: [2]) = applySgr State.initial [2] ∧
    applySgr State.initial (48 :: [2]) = applySgr State.initial [2] :=
  c3_extended_color_amended State.initial [2] (by decide)

/-- C9: an SGR parameter value outside the defined transition table, at the
head of the parameter list (hence not consumed as an argument of a
preceding 38 or 48), is skipped without altering any field of the state. -/
theorem c9_unknown_codes :
    ∀ (st : State) (p : Int) (rest : List Int), sgrKnown p = false →
      applySgr st (p :: rest) = applySgr st rest ∧ applySgr st [p] = st := by
  intro st p rest h
  have h0 : ¬ p = 0 := fun hp => absurd (hp ▸ h) (by decide)
  have h1 : ¬ p = 1 := fun hp => absurd (hp ▸ h) (by decide)
  have h2 : ¬ p = 2 := fun hp => absurd (hp ▸ h) (by decide)
  have h3 : ¬ p = 3 := fun hp => absurd (hp ▸ h) (by decide)
  have h4 : ¬ p = 4 := fun hp => absurd (hp ▸ h) (by decide)
  have h22 : ¬ p = 22 := fun hp => absurd (hp ▸ h) (by decide)
  have h23 : ¬ p = 23 := fun hp => absurd (hp ▸ h) (by decide)
  have h7 : ¬ p = 7 := fun hp => absurd (hp ▸ h) (by decide)
  have h24 : ¬ p = 24 := fun hp => absurd (hp ▸ h) (by decide)
  have h27 : ¬ p = 27 := fun hp => absurd (hp ▸ h) (by decide)
  have h39 : ¬ p = 39 := fun hp => absurd (hp ▸ h) (by decide)
  have h49 : ¬ p = 49 := fun hp => absurd (hp ▸ h) (by decide)
  have h38 : ¬ p = 38 := fun hp => absurd (hp ▸ h) (by decide)
  have h48 : ¬ p = 48 := fun hp => absurd (hp ▸ h) (by decide)
  have hbf : ¬ (basicFg p).isSome = true := fun hf => by simp [sgrKnown, hf] at h
  have hbb : ¬ (basicBg p).isSome = true := fun hf => by simp [sgrKnown, hf] at h
  constructor
  · show applySgr st (p :: rest) = applySgr st rest
    rw [applySgr.eq_def]
    dsimp only
    rw [if_neg h0, if_neg h1, if_neg h2, if_neg h3, if_neg h4, if_neg h22, if_neg h23,
      if_neg h7, if_neg h24, if_neg h27, if_neg h39, if_neg h49, if_neg hbf, if_neg hbb,
      if_neg h38, if_neg h48]
  · show applySgr st [p] = st
    rw [applySgr.eq_def]
    dsimp only
    rw [if_neg h0, if_neg h1, if_neg h2, if_neg h3, if_neg h4, if_neg h22, if_neg h23,
      if_neg h7, if_neg h24, if_neg h27, if_neg h39, if_neg h49, if_neg hbf, if_neg hbb,
      if_neg h38, if_neg h48]
    rfl

/-- C9 witness: the undefined code 5 is skipped and leaves the initial state
unchanged. -/
theorem c9_unknown_codes_witness :
    applySgr State.initial ((5 : Int) :: []) = applySgr State.initial [] ∧
    applySgr State.initial [(5 : Int)] = State.initial :=
  c9_unknown_codes State.initial 5 [] (by decide)

/-- C7 counterexample: on the line `ESC[Zq` nothing is strippable and no SGR
sequence matches, so the claimed invariant demands that the concatenated
Run text reproduce the whole line; instead the parser swallows the entire
line (the token starts with `ESC[` and is consumed as a pseudo-SGR
sequence), emitting no text at all. -/
theorem c7_roundtrip_counterexample :
    stripEscapes ("\x1b[Zq".toList) = ("\x1b[Zq".toList) ∧
    sgrRemoved (stripEscapes ("\x1b[Zq".toList)) = ("\x1b[Zq".toList) ∧
    runsText (parseLineCore State.initial ("\x1b[Zq".toList)).1 = [] ∧
    runsText (parseLineCore State.initial ("\x1b[Zq".toList)).1 ≠
      sgrRemoved (stripEscapes ("\x1b[Zq".toList)) ∧
    parse_lines "\x1b[Zq" = [[]] :=
  ⟨by decide, by decide, by decide, by decide, by decide⟩

/-- C7 amended: concatenating the text fields of a line's Runs, in order,
reproduces the input line with recognized strippable sequences deleted and,
after SGR splitting, every token beginning with `ESC[` deleted whole — both
genuine SGR sequences and unrecognized `ESC[`-prefixed remainder tokens,
the latter being consumed entirely as pseudo-SGR sequences. -/
theorem c7_roundtrip_amended :
    ∀ (st : State) (line : List Char),
      runsText (parseLineCore st line).1 =
        ((sgrSplit (stripEscapes line)).filter
          (fun tok => !startsWithEscBracket tok)).flatten := by
  intro st line
  show runsText (runsOfTokens st (sgrSplit (stripEscapes line))).1 = _
  generalize sgrSplit (stripEscapes line) = toks
  induction toks generalizing st with
  | nil => rfl
  | cons tok rest ih =>
    by_cases he : tok.isEmpty
    · have htok : tok = [] := by rwa [List.isEmpty_iff] at he
      subst htok
      rw [runsOfTokens.eq_def]
      dsimp only
      rw [if_pos he, ih st]
      simp [List.filter_cons, startsWithEscBracket]
    · by_cases hs : startsWithEscBracket tok
      · rw [runsOfTokens.eq_def]
        dsimp only
        rw [if_neg (by simpa using he), if_pos hs, ih]
        simp [List.filter_cons, hs]
      · rw [runsOfTokens.eq_def]
        dsimp only
        rw [if_neg (by simpa using he), if_neg (by simpa using hs)]
        have h1 : runsText (State.to_run st tok :: (runsOfTokens st rest).1) =
            tok ++ runsText (runsOfTokens st rest).1 := rfl
        rw [h1, ih st]
        simp [List.filter_cons, hs]

section ColorSetLemmas

/-- `hexDigit` produces a lowercase hexadecimal digit on in-range input. -/
theorem hexDigit_lower_of_lt {k : Nat} (hk : k < 16) :
    lowerHexDigit (hexDigit k) = true := by
  have hall : ∀ m, m < 16 → lowerHexDigit (hexDigit m) = true := by decide
  exact hall k hk

/-- The fuelled hex accumulator only ever adds lowercase hex digits. -/
theorem toHexAux_lower : ∀ (fuel n : Nat) (acc : List Char),
    acc.all lowerHexDigit = true → (toHexAux fuel n acc).all lowerHexDigit = true := by
  intro fuel
  induction fuel with
  | zero => intro n acc h; simpa [toHexAux] using h
  | succ f ih =>
    intro n acc h
    by_cases hn : n < 16
    · simp [toHexAux, hn, List.all_cons, h, hexDigit_lower_of_lt hn]
    · simp only [toHexAux, if_neg hn]
      exact ih _ _
        (by simp [List.all_cons, h, hexDigit_lower_of_lt (Nat.mod_lt n (by norm_num))])

/-- Python `format(n, "x")` output is all lowercase hex digits. -/
theorem pyHexNat_lower (n : Nat) : (pyHexNat n).all lowerHexDigit = true :=
  toHexAux_lower _ _ _ rfl

/-- Python `format(n, "02x")` output is all lowercase hex digits. -/
theorem pyHex2_lower (n : Nat) : (pyHex2 n).all lowerHexDigit = true := by
  by_cases hl : (pyHexNat n).length < 2
  · simp [pyHex2, hl, List.all_cons, pyHexNat_lower n,
      show lowerHexDigit ('0' : Char) = true from by decide]
  · simp [pyHex2, hl, pyHexNat_lower n]

/-- Lowercase hex digits are in the hex-or-dash character class. -/
theorem all_hexDash_of_all_lower {l : List Char} (h : l.all lowerHexDigit = true) :
    l.all hexDashChar = true := by
  rw [List.all_eq_true] at h ⊢
  intro c hc
  have h2 := h c hc
  simp [hexDashChar, h2]

/-- The signed `02x` formatter emits only hex digits and minus signs. -/
theorem pyHex2I_hexDash (n : Int) : (pyHex2I n).all hexDashChar = true := by
  by_cases hn : n < 0
  · simp [pyHex2I, hn, List.all_cons, all_hexDash_of_all_lower (pyHexNat_lower n.natAbs),
      show hexDashChar ('-' : Char) = true from by decide]
  · simp [pyHex2I, hn, all_hexDash_of_all_lower (pyHex2_lower n.toNat)]

/-- A direct `38;2;R;G;B` hex color is a storable state color string. -/
theorem hexRGB_ok (r g b : Int) : stateColorOK (hexRGB r g b) = true := by
  have hall : ∀ m : Int, ∀ x ∈ pyHex2I m, hexDashChar x = true := by
    intro m
    rw [← List.all_eq_true]
    exact pyHex2I_hexDash m
  simp [stateColorOK, hexRGB]
  exact Or.inr ⟨hall r, hall g, hall b⟩

/-- Every 256-palette resolution is a storable state color string. -/
theorem color256_ok (n : Int) : stateColorOK (color256 n) = true := by
  by_cases h1 : 0 ≤ n ∧ n ≤ 15
  · have hk : n.toNat < 16 := by omega
    have hall : ∀ k, k < 16 → stateColorOK (color256Names.getD k []) = true := by decide
    simp only [color256, if_pos h1]
    exact hall _ hk
  · by_cases h2 : 16 ≤ n ∧ n ≤ 231
    · simp only [color256, if_neg h1, if_pos h2]
      simp [stateColorOK, List.all_append, all_hexDash_of_all_lower (pyHex2_lower _)]
    · by_cases h3 : 232 ≤ n ∧ n ≤ 255
      · simp only [color256, if_neg h1, if_neg h2, if_pos h3]
        simp [stateColorOK, List.all_append, all_hexDash_of_all_lower (pyHex2_lower _)]
      · simp only [color256, if_neg h1, if_neg h2, if_neg h3]
        decide

/-- A successful `_BASIC_FG` lookup yields one of the 16 names. -/
theorem basicFg_ok {p : Int} {s : List Char} (h : basicFg p = some s) :
    stateColorOK s = true := by
  unfold basicFg at h
  cases hf : basicFgList.find? (fun q => q.1 == p) with
  | none => rw [hf] at h; simp at h
  | some q =>
    rw [hf] at h
    simp only [Option.map_some'] at h
    rw [Option.some_inj] at h
    have hmem := List.mem_of_find?_eq_some hf
    have hall : ∀ q ∈ basicFgList, stateColorOK q.2 = true := by decide
    exact h ▸ hall q hmem

/-- A successful `_BASIC_BG` lookup yields one of the 16 names. -/
theorem basicBg_ok {p : Int} {s : List Char} (h : basicBg p = some s) :
    stateColorOK s = true := by
  unfold basicBg at h
  cases hf : basicBgList.find? (fun q => q.1 == p) with
  | none => rw [hf] at h; simp at h
  | some q =>
    rw [hf] at h
    simp only [Option.map_some'] at h
    rw [Option.some_inj] at h
    have hmem := List.mem_of_find?_eq_some hf
    have hall : ∀ q ∈ basicBgList, stateColorOK q.2 = true := by decide
    exact h ▸ hall q hmem

/-- The initial state trivially satisfies the color invariant. -/
theorem initial_colors_ok : StateColorsOK State.initial :=
  ⟨fun s hs => by simp [State.initial] at hs, fun s hs => by simp [State.initial] at hs⟩

/-- `_apply_sgr` preserves the color invariant: every color it stores comes
from a basic lookup, the 256-palette resolver, or the direct hex formatter. -/
theorem applySgr_colors_ok :
    ∀ (k : Nat) (ps : List Int) (st : State), ps.length ≤ k →
      StateColorsOK st → StateColorsOK (applySgr st ps) := by
  intro k
  induction k with
  | zero =>
    intro ps st hlen h
    cases ps with
    | nil => exact h
    | cons p rest => simp at hlen
  | succ k ih =>
    intro ps st hlen h
    cases ps with
    | nil => exact h
    | cons p rest =>
      have hlen2 : rest.length ≤ k := by simpa using hlen
      rw [applySgr.eq_def]
      dsimp only
      by_cases h0 : p = 0
      · rw [if_pos h0]; exact ih rest State.initial hlen2 initial_colors_ok
      · rw [if_neg h0]
        by_cases h1 : p = 1
        · rw [if_pos h1]; exact ih rest _ hlen2 ⟨h.1, h.2⟩
        · rw [if_neg h1]
          by_cases h2 : p = 2
          · rw [if_pos h2]; exact ih rest _ hlen2 ⟨h.1, h.2⟩
          · rw [if_neg h2]
            by_cases h3 : p = 3
            · rw [if_pos h3]; exact ih rest _ hlen2 ⟨h.1, h.2⟩
            · rw [if_neg h3]
              by_cases h4 : p = 4
              · rw [if_pos h4]; exact ih rest _ hlen2 ⟨h.1, h.2⟩
              · rw [if_neg h4]
                by_cases h22 : p = 22
                · rw [if_pos h22]; exact ih rest _ hlen2 ⟨h.1, h.2⟩
                · rw [if_neg h22]
                  by_cases h23 : p = 23
                  · rw [if_pos h23]; exact ih rest _ hlen2 ⟨h.1, h.2⟩
                  · rw [if_neg h23]
                    by_cases h7 : p = 7
                    · rw [if_pos h7]; exact ih rest _ hlen2 ⟨h.1, h.2⟩
                    · rw [if_neg h7]
                      by_cases h24 : p = 24
                      · rw [if_pos h24]; exact ih rest _ hlen2 ⟨h.1, h.2⟩
                      · rw [if_neg h24]
                        by_cases h27 : p = 27
                        · rw [if_pos h27]; exact ih rest _ hlen2 ⟨h.1, h.2⟩
                        · rw [if_neg h27]
                          by_cases h39 : p = 39
                          · rw [if_pos h39]
                            exact ih rest _ hlen2 ⟨fun s hs => by simp at hs, h.2⟩
                          · rw [if_neg h39]
                            by_cases h49 : p = 49
                            · rw [if_pos h49]
                              exact ih rest _ hlen2 ⟨h.1, fun s hs => by simp at hs⟩
                            · rw [if_neg h49]
                              by_cases hbf : (basicFg p).isSome = true
                              · rw [if_pos hbf]
                                exact ih rest _ hlen2 ⟨fun s hs => basicFg_ok hs, h.2⟩
                              · rw [if_neg hbf]
                                by_cases hbb : (basicBg p).isSome = true
                                · rw [if_pos hbb]
                                  exact ih rest _ hlen2 ⟨h.1, fun s hs => basicBg_ok hs⟩
                                · rw [if_neg hbb]
                                  by_cases h38 : p = 38
                                  · rw [if_pos h38]
                                    split
                                    · rename_i n rest2
                                      refine ih rest2 _ (by simp at hlen2; omega) ?_
                                      refine ⟨fun s hs => ?_, h.2⟩
                                      have hcn : color256 n = s := by
                                        simpa using hs
                                      exact hcn ▸ color256_ok n
                                    · rename_i r g b rest2
                                      refine ih rest2 _ (by simp at hlen2; omega) ?_
                                      refine ⟨fun s hs => ?_, h.2⟩
                                      have hcn : hexRGB r g b = s := by
                                        simpa using hs
                                      exact hcn ▸ hexRGB_ok r g b
                                    · exact ih rest st hlen2 h
                                  · rw [if_neg h38]
                                    by_cases h48 : p = 48
                                    · rw [if_pos h48]
                                      split
                                      · rename_i n rest2
                                        refine ih rest2 _ (by simp at hlen2; omega) ?_
                                        refine ⟨h.1, fun s hs => ?_⟩
                                        have hcn : color256 n = s := by
                                          simpa using hs
                                        exact hcn ▸ color256_ok n
                                      · rename_i r g b rest2
                                        refine ih rest2 _ (by simp at hlen2; omega) ?_
                                        refine ⟨h.1, fun s hs => ?_⟩
                                        have hcn : hexRGB r g b = s := by
                                          simpa using hs
                                        exact hcn ▸ hexRGB_ok r g b
                                      · exact ih rest st hlen2 h
                                    · rw [if_neg h48]
                                      exact ih rest st hlen2 h

/-- Every color on a run emitted by `to_run` under an invariant-satisfying
state is a storable state color or one of the two sentinels. -/
theorem to_run_colors_ok {st : State} (hst : StateColorsOK st) (text : List Char) :
    ∀ s, ((st.to_run text).fg = some s ∨ (st.to_run text).bg = some s) →
      runColorOK s = true := by
  intro s hs
  have hfg : (st.to_run text).fg =
      truthy (if st.reverse then some (st.bg.getD defBg) else st.fg) := rfl
  have hbg : (st.to_run text).bg =
      truthy (if st.reverse then some (st.fg.getD defFg) else st.bg) := rfl
  rcases hs with hside | hside
  · rw [hfg] at hside
    by_cases hr : st.reverse
    · rw [if_pos hr] at hside
      have h2 := eq_some_of_truthy_eq_some hside
      cases hb : st.bg with
      | none =>
        rw [hb] at h2
        have : s = defBg := by simpa using h2.symm
        simp [runColorOK, this]
      | some v =>
        rw [hb] at h2
        have hv : v = s := by simpa using h2
        have := hst.2 v hb
        simp [runColorOK, hv ▸ this]
    · rw [if_neg hr] at hside
      have h2 := eq_some_of_truthy_eq_some hside
      simp [runColorOK, hst.1 s h2]
  · rw [hbg] at hside
    by_cases hr : st.reverse
    · rw [if_pos hr] at hside
      have h2 := eq_some_of_truthy_eq_some hside
      cases hb : st.fg with
      | none =>
        rw [hb] at h2
        have : s = defFg := by simpa using h2.symm
        simp [runColorOK, this]
      | some v =>
        rw [hb] at h2
        have hv : v = s := by simpa using h2
        have := hst.1 v hb
        simp [runColorOK, hv ▸ this]
    · rw [if_neg hr] at hside
      have h2 := eq_some_of_truthy_eq_some hside
      simp [runColorOK, hst.2 s h2]

/-- The token loop preserves the state color invariant and only emits runs
whose colors are storable state colors or sentinels. -/
theorem runsOfTokens_colors_ok :
    ∀ (toks : List (List Char)) (st : State), StateColorsOK st →
      (∀ run ∈ (runsOfTokens st toks).1, ∀ s,
        (run.fg = some s ∨ run.bg = some s) → runColorOK s = true) ∧
      StateColorsOK (runsOfTokens st toks).2 := by
  intro toks
  induction toks with
  | nil =>
    intro st h
    exact ⟨fun run hr => by simp [runsOfTokens] at hr, h⟩
  | cons tok rest ih =>
    intro st h
    rw [runsOfTokens.eq_def]
    dsimp only
    by_cases he : tok.isEmpty
    · rw [if_pos he]; exact ih st h
    · rw [if_neg he]
      by_cases hs : startsWithEscBracket tok
      · rw [if_pos hs]
        exact ih _ (applySgr_colors_ok _ _ st le_rfl h)
      · rw [if_neg hs]
        refine ⟨fun run hr => ?_, (ih st h).2⟩
        rcases List.mem_cons.mp hr with hrun | hrun
        · exact hrun ▸ to_run_colors_ok h tok
        · exact (ih st h).1 run hrun

/-- The document driver only emits runs whose colors are storable state
colors or sentinels, starting from any invariant-satisfying state. -/
theorem parseDoc_colors_ok :
    ∀ (ls : List (List Char)) (st : State), StateColorsOK st →
      ∀ lineRuns ∈ parseDoc st ls, ∀ run ∈ lineRuns, ∀ s,
        (run.fg = some s ∨ run.bg = some s) → runColorOK s = true := by
  intro ls
  induction ls with
  | nil => intro st h lineRuns hmem; simp [parseDoc] at hmem
  | cons l rest ih =>
    intro st h lineRuns hmem
    rcases List.mem_cons.mp hmem with hline | hline
    · intro run hrun s hside
      have := (runsOfTokens_colors_ok (sgrSplit (stripEscapes l)) st h).1
      exact this run (hline ▸ hrun) s hside
    · exact ih (parseLineCore st l).2
        (runsOfTokens_colors_ok (sgrSplit (stripEscapes l)) st h).2 lineRuns hline

end ColorSetLemmas

/-- C10 counterexample: a negative RGB component can reach the direct hex
formatter through the pseudo-SGR leniency path, producing the fg string
`#-10000`, which is not a `#`-prefixed lowercase hex string and is outside
the claimed closed set. -/
theorem c10_color_set_counterexample :
    parse_lines "\x1b[38;2;-1;0;0mQ\ntext" =
      [[], [⟨("text".toList), some ("#-10000".toList), none, false, false, false, false⟩]] ∧
    claimedRunColor ("#-10000".toList) = false :=
  ⟨by decide, by decide⟩

/-- C10 amended: every fg or bg value on a Run produced by `parse_lines` is
one of the 16 fixed names, a `#`-prefixed string of lowercase hex digits
and minus signs (a minus can appear when a negative RGB component reaches
the direct hex formatter through the lenient pseudo-SGR parameter path),
or one of the two sentinel tokens `_defBg` and `_defFg`. -/
theorem c10_color_set_amended :
    ∀ (raw : String) (lineRuns : List Run) (run : Run) (s : List Char),
      lineRuns ∈ parse_lines raw → run ∈ lineRuns →
      (run.fg = some s ∨ run.bg = some s) → runColorOK s = true := by
  intro raw lineRuns run s hline hrun hside
  exact parseDoc_colors_ok (splitOnChar '\n' raw.toList) State.initial
    initial_colors_ok lineRuns hline run hrun s hside

/-- C10 amended witness: the red run of `ESC[31mx` carries an allowed color. -/
theorem c10_color_set_amended_witness : runColorOK ("red".toList) = true :=
  c10_color_set_amended "\x1b[31mx"
    [⟨("x".toList), some ("red".toList), none, false, false, false, false⟩]
    ⟨("x".toList), some ("red".toList), none, false, false, false, false⟩
    ("red".toList) (by decide) (by decide) (Or.inl rfl)

end Ansi
